import Mathlib

/-!
Shallow embedding of the pngme chunk codec (`src/conversions.rs`,
`src/chunk_type.rs`, `src/chunk.rs`) together with proofs about the
properties its specification states.

Machine integers are modelled as `Nat` with explicit `% 2^32` at the points
where the Rust code performs a truncating cast (`as u32`); `u8` values are
`Nat`s that the surrounding code guarantees to be `< 256`.  Fallible Rust
functions returning `Result` become `Except`; `Chunk::try_from`, which can
also abort the process through `.unwrap()`, returns a three-valued outcome.
-/

set_option maxRecDepth 100000

namespace Pngme

/-! ## conversions.rs -/

/-- `conversions.rs::char_to_u8`: Rust `my_char as u8` truncates the unicode
scalar value to its low 8 bits. -/
def char_to_u8 (my_char : Char) : Nat := my_char.toNat % 256

/-- `conversions.rs::u8_to_bits`: the bits of a `u8`, most significant first
(the source formats the number with `{num:08b}` and reads the digit
characters; on the `u8` domain that is exactly the eight `testBit`s). -/
def u8_to_bits (num : Nat) : List Bool :=
  [num.testBit 7, num.testBit 6, num.testBit 5, num.testBit 4,
   num.testBit 3, num.testBit 2, num.testBit 1, num.testBit 0]

/-- `conversions.rs::bits_to_byte`: fold the enumerated bit array back into a
byte, adding `1 <<< (7 - idx)` for each set bit. -/
def bits_to_byte (rep : List Bool) : Nat :=
  rep.enum.foldl (fun sum p => if p.2 then sum + 2 ^ (7 - p.1) else sum) 0

/-- `conversions.rs::bytes_to_u32`: big-endian interpretation of 4 bytes,
adding `(byte as u32) <<< (8 * (3 - idx))` for each byte. -/
def bytes_to_u32 (rep : List Nat) : Nat :=
  rep.enum.foldl (fun sum p => sum + p.2 * 2 ^ (8 * (3 - p.1))) 0

/-- Modelled from the spec: `u32_to_bytes` is imported by `chunk.rs` from
`conversions.rs` but its definition is absent from the provided sources.  Per
the spec, serialization "emits ... the 4-byte big-endian length ... the 4-byte
big-endian CRC", so it splits a `u32` into its 4 bytes, most significant
first. -/
def u32_to_bytes (num : Nat) : List Nat :=
  [num / 2 ^ 24 % 256, num / 2 ^ 16 % 256, num / 2 ^ 8 % 256, num % 256]

set_option maxRecDepth 4000 in
theorem bits_to_byte_u8_to_bits : ∀ b < 256, bits_to_byte (u8_to_bits b) = b := by
  decide

theorem bytes_to_u32_eval (a b c d : Nat) :
    bytes_to_u32 [a, b, c, d] = a * 2 ^ 24 + b * 2 ^ 16 + c * 2 ^ 8 + d := by
  simp [bytes_to_u32, List.enum, List.enumFrom, List.foldl]

theorem bytes_to_u32_lt {a b c d : Nat} (ha : a < 256) (hb : b < 256)
    (hc : c < 256) (hd : d < 256) : bytes_to_u32 [a, b, c, d] < 2 ^ 32 := by
  rw [bytes_to_u32_eval]
  omega

theorem u32_to_bytes_length (n : Nat) : (u32_to_bytes n).length = 4 := rfl

theorem u32_to_bytes_mem_lt (n : Nat) : ∀ x ∈ u32_to_bytes n, x < 256 := by
  simp only [u32_to_bytes, List.mem_cons, List.not_mem_nil, or_false]
  rintro x (rfl | rfl | rfl | rfl) <;> omega

theorem bytes_to_u32_u32_to_bytes {n : Nat} (h : n < 2 ^ 32) :
    bytes_to_u32 (u32_to_bytes n) = n := by
  simp only [u32_to_bytes, bytes_to_u32_eval]
  omega

/-! ## chunk_type.rs -/

/-- `chunk_type.rs::ChunkType`: four bytes stored as 8-element bit arrays,
most significant bit at index 0.  Despite the field names, `byte_four` holds
`bytes[0]` (the first, leftmost byte) and `byte_one` holds `bytes[3]`. -/
structure ChunkType where
  byte_four : List Bool
  byte_three : List Bool
  byte_two : List Bool
  byte_one : List Bool
deriving DecidableEq

/-- `chunk_type.rs::ParseChunkTypeError`. -/
structure ParseChunkTypeError
deriving DecidableEq

instance {ε α : Type} [DecidableEq ε] [DecidableEq α] : DecidableEq (Except ε α) :=
  fun x y =>
    match x, y with
    | .ok a, .ok b => if h : a = b then .isTrue (by rw [h]) else .isFalse (by simp [h])
    | .error a, .error b => if h : a = b then .isTrue (by rw [h]) else .isFalse (by simp [h])
    | .ok _, .error _ => .isFalse (by simp)
    | .error _, .ok _ => .isFalse (by simp)

/-- `chunk_type.rs::ChunkType::from_arr_bytes`. -/
def ChunkType.from_arr_bytes (bytes : List (List Bool)) : ChunkType :=
  { byte_four := bytes.getD 0 []
    byte_three := bytes.getD 1 []
    byte_two := bytes.getD 2 []
    byte_one := bytes.getD 3 [] }

/-- The rejection test applied to each byte in `ChunkType::try_from` (and
repeated inside `is_valid`): true when the byte is not an ASCII letter. -/
def badTypeByte (n : Nat) : Bool :=
  (n < 65) || (n > 90 && n < 97) || (n > 122)

/-- The byte is an ASCII letter (A-Z or a-z). -/
def letterByte (n : Nat) : Prop :=
  (65 ≤ n ∧ n ≤ 90) ∨ (97 ≤ n ∧ n ≤ 122)

instance (n : Nat) : Decidable (letterByte n) := by
  unfold letterByte; infer_instance

theorem badTypeByte_eq_false_iff (n : Nat) : badTypeByte n = false ↔ letterByte n := by
  simp [badTypeByte, letterByte]
  omega

/-- `chunk_type.rs::ChunkType::try_from(nums: [u8; 4])`: checks each of the
four bytes in index order, failing at the first non-letter, and stores the
bit arrays of the bytes. -/
def ChunkType.tryFrom (nums : List Nat) : Except ParseChunkTypeError ChunkType :=
  if nums.length = 4 then
    if badTypeByte (nums.getD 0 0) then .error ⟨⟩
    else if badTypeByte (nums.getD 1 0) then .error ⟨⟩
    else if badTypeByte (nums.getD 2 0) then .error ⟨⟩
    else if badTypeByte (nums.getD 3 0) then .error ⟨⟩
    else .ok (ChunkType.from_arr_bytes
      [u8_to_bits (nums.getD 0 0), u8_to_bits (nums.getD 1 0),
       u8_to_bits (nums.getD 2 0), u8_to_bits (nums.getD 3 0)])
  else .error ⟨⟩

/-- Rust `str::len` counts UTF-8 bytes, not characters. -/
def strByteLen (s : List Char) : Nat := (s.map Char.utf8Size).sum

/-- The byte-array building loop of `ChunkType::from_str`: `bytes[idx] =
char_to_u8(my_char)` over the enumerated characters, starting from
`[0, 0, 0, 0]`. -/
def ChunkType.strToBytes (s : List Char) : List Nat :=
  s.enum.foldl (fun bytes p => bytes.set p.1 (char_to_u8 p.2)) [0, 0, 0, 0]

/-- `chunk_type.rs::ChunkType::from_str` (the `FromStr` impl): rejects
strings whose UTF-8 byte length is not 4, then converts each character with
`char_to_u8` and delegates to `try_from`. -/
def ChunkType.from_str (s : List Char) : Except ParseChunkTypeError ChunkType :=
  if strByteLen s ≠ 4 then .error ⟨⟩
  else ChunkType.tryFrom (ChunkType.strToBytes s)

/-- `chunk_type.rs::ChunkType::bytes`. -/
def ChunkType.bytes (ct : ChunkType) : List Nat :=
  [bits_to_byte ct.byte_four, bits_to_byte ct.byte_three,
   bits_to_byte ct.byte_two, bits_to_byte ct.byte_one]

/-- `chunk_type.rs::ChunkType::is_valid`: re-derives the byte stored in
`byte_two` and aborts the process (`none`, the `panic!` branch) when it is
not an ASCII letter — the check repeats `try_from`'s byte test verbatim;
otherwise reports whether bit index 2 (bit 5 from the least significant end)
is clear. -/
def ChunkType.is_valid (ct : ChunkType) : Option Bool :=
  let byte_three_num := bits_to_byte ct.byte_two
  if badTypeByte byte_three_num then
    none
  else
    some (!(ct.byte_two.getD 2 false))

/-- `chunk_type.rs::ChunkType::is_critical`. -/
def ChunkType.is_critical (ct : ChunkType) : Bool :=
  !(ct.byte_four.getD 2 false)

/-- `chunk_type.rs::ChunkType::is_public`. -/
def ChunkType.is_public (ct : ChunkType) : Bool :=
  !(ct.byte_three.getD 2 false)

/-- `chunk_type.rs::ChunkType::is_reserved_bit_valid`: delegates to
`is_valid` (so it inherits the abort branch). -/
def ChunkType.is_reserved_bit_valid (ct : ChunkType) : Option Bool :=
  ct.is_valid

/-- `chunk_type.rs::ChunkType::is_safe_to_copy`. -/
def ChunkType.is_safe_to_copy (ct : ChunkType) : Bool :=
  ct.byte_one.getD 2 false

/-- Inversion for a successful `ChunkType::try_from`. -/
theorem ChunkType.tryFrom_ok_cases {nums : List Nat} {ct : ChunkType}
    (h : ChunkType.tryFrom nums = .ok ct) :
    ∃ b0 b1 b2 b3, nums = [b0, b1, b2, b3] ∧
      letterByte b0 ∧ letterByte b1 ∧ letterByte b2 ∧ letterByte b3 ∧
      ct = ChunkType.from_arr_bytes
        [u8_to_bits b0, u8_to_bits b1, u8_to_bits b2, u8_to_bits b3] := by
  match nums with
  | [] => simp [ChunkType.tryFrom] at h
  | [a] => simp [ChunkType.tryFrom] at h
  | [a, b] => simp [ChunkType.tryFrom] at h
  | [a, b, c] => simp [ChunkType.tryFrom] at h
  | a :: b :: c :: d :: e :: tl => simp [ChunkType.tryFrom] at h
  | [b0, b1, b2, b3] =>
    refine ⟨b0, b1, b2, b3, rfl, ?_⟩
    simp only [ChunkType.tryFrom, List.length_cons, List.length_nil, if_pos rfl,
      List.getD_cons_zero, List.getD_cons_succ, if_true] at h
    rcases hb0 : badTypeByte b0 with _ | _ <;> rw [hb0] at h <;> simp at h
    rcases hb1 : badTypeByte b1 with _ | _ <;> rw [hb1] at h <;> simp at h
    rcases hb2 : badTypeByte b2 with _ | _ <;> rw [hb2] at h <;> simp at h
    rcases hb3 : badTypeByte b3 with _ | _ <;> rw [hb3] at h <;> simp at h
    rw [badTypeByte_eq_false_iff] at hb0 hb1 hb2 hb3
    exact ⟨hb0, hb1, hb2, hb3, h.symm⟩

theorem letterByte_lt {n : Nat} (h : letterByte n) : n < 256 := by
  rcases h with ⟨_, _⟩ | ⟨_, _⟩ <;> omega

theorem letterByte_lt123 {n : Nat} (h : letterByte n) : n < 123 := by
  rcases h with ⟨_, _⟩ | ⟨_, _⟩ <;> omega

/-- For letter inputs, `try_from` succeeds and is inverted by `bytes()`. -/
theorem ChunkType.tryFrom_letters {b0 b1 b2 b3 : Nat}
    (h0 : letterByte b0) (h1 : letterByte b1) (h2 : letterByte b2) (h3 : letterByte b3) :
    ChunkType.tryFrom [b0, b1, b2, b3] = .ok (ChunkType.from_arr_bytes
      [u8_to_bits b0, u8_to_bits b1, u8_to_bits b2, u8_to_bits b3]) := by
  have e0 := (badTypeByte_eq_false_iff b0).mpr h0
  have e1 := (badTypeByte_eq_false_iff b1).mpr h1
  have e2 := (badTypeByte_eq_false_iff b2).mpr h2
  have e3 := (badTypeByte_eq_false_iff b3).mpr h3
  simp [ChunkType.tryFrom, e0, e1, e2, e3]

theorem ChunkType.bytes_from_arr {b0 b1 b2 b3 : Nat}
    (h0 : letterByte b0) (h1 : letterByte b1) (h2 : letterByte b2) (h3 : letterByte b3) :
    (ChunkType.from_arr_bytes
      [u8_to_bits b0, u8_to_bits b1, u8_to_bits b2, u8_to_bits b3]).bytes
      = [b0, b1, b2, b3] := by
  simp [ChunkType.bytes, ChunkType.from_arr_bytes,
    bits_to_byte_u8_to_bits _ (letterByte_lt h0),
    bits_to_byte_u8_to_bits _ (letterByte_lt h1),
    bits_to_byte_u8_to_bits _ (letterByte_lt h2),
    bits_to_byte_u8_to_bits _ (letterByte_lt h3)]

/-- A parsed `ChunkType` re-parses from its own `bytes()` to itself. -/
theorem ChunkType.tryFrom_bytes {nums : List Nat} {ct : ChunkType}
    (h : ChunkType.tryFrom nums = .ok ct) :
    ChunkType.tryFrom ct.bytes = .ok ct := by
  obtain ⟨b0, b1, b2, b3, rfl, h0, h1, h2, h3, rfl⟩ := ChunkType.tryFrom_ok_cases h
  rw [ChunkType.bytes_from_arr h0 h1 h2 h3]
  exact ChunkType.tryFrom_letters h0 h1 h2 h3

/-! ## CRC-32/ISO-HDLC

`chunk.rs` delegates the checksum to the external `crc` crate with the
`CRC_32_ISO_HDLC` algorithm.  This is the standard reflected CRC-32 (the PNG
and zip variant): width 32, reflected polynomial `0xEDB88320`, initial value
`0xFFFFFFFF`, reflected input/output, final xor `0xFFFFFFFF`.  The model
below is the bit-at-a-time form of that algorithm; it reproduces the checksum
value `2882656334` asserted by the repository's own tests. -/

def crcPoly : Nat := 0xEDB88320

/-- One bit step of the reflected CRC-32: shift right, conditionally xoring
in the reflected polynomial. -/
def crcRound (x : Nat) : Nat :=
  if x % 2 = 1 then (x / 2) ^^^ crcPoly else x / 2

/-- Eight bit steps: the per-byte core. -/
def crc_rounds8 (x : Nat) : Nat :=
  crcRound (crcRound (crcRound (crcRound (crcRound (crcRound (crcRound (crcRound x)))))))

/-- Absorb one message byte into the running CRC state. -/
def crcByteStep (s b : Nat) : Nat := crc_rounds8 (s ^^^ b)

/-- Absorb a whole message. -/
def crcLoop : List Nat → Nat → Nat
  | [], s => s
  | b :: rest, s => crcLoop rest (crcByteStep s b)

/-- `Crc::<u32>::new(&CRC_32_ISO_HDLC).checksum(msg)`. -/
def crc32 (msg : List Nat) : Nat := crcLoop msg 0xFFFFFFFF ^^^ 0xFFFFFFFF

set_option maxRecDepth 100000 in
/-- Sanity example taken from the repository's test-suite vector: the CRC of
`"RuSt" ++ "This is where your secret message will be!"` is `2882656334`. -/
example :
    crc32 [82, 117, 83, 116, 84, 104, 105, 115, 32, 105, 115, 32, 119, 104,
      101, 114, 101, 32, 121, 111, 117, 114, 32, 115, 101, 99, 114, 101, 116,
      32, 109, 101, 115, 115, 97, 103, 101, 32, 119, 105, 108, 108, 32, 98,
      101, 33] = 2882656334 := by decide

theorem crcRound_lt {x : Nat} (h : x < 2 ^ 32) : crcRound x < 2 ^ 32 := by
  have hp : crcPoly < 2 ^ 32 := by decide
  have hd : x / 2 < 2 ^ 32 := by omega
  unfold crcRound
  split
  · exact Nat.xor_lt_two_pow hd hp
  · exact hd

/-- Explicit inverse of `crcRound` on 32-bit states. -/
def crcRoundInv (y : Nat) : Nat :=
  if y.testBit 31 then 2 * (y ^^^ crcPoly) + 1 else 2 * y

theorem crcRoundInv_crcRound {x : Nat} (h : x < 2 ^ 32) :
    crcRoundInv (crcRound x) = x := by
  have hd : x / 2 < 2 ^ 31 := by omega
  have hbit : (x / 2).testBit 31 = false := Nat.testBit_lt_two_pow hd
  have hpbit : crcPoly.testBit 31 = true := by decide
  unfold crcRound
  split
  · next hodd =>
    have h31 : ((x / 2) ^^^ crcPoly).testBit 31 = true := by
      rw [Nat.testBit_xor, hbit, hpbit]; rfl
    rw [crcRoundInv, if_pos h31, Nat.xor_assoc, Nat.xor_self, Nat.xor_zero]
    omega
  · next heven =>
    rw [crcRoundInv, if_neg (by simp [hbit])]
    omega

theorem crcRound_inj {x y : Nat} (hx : x < 2 ^ 32) (hy : y < 2 ^ 32)
    (h : crcRound x = crcRound y) : x = y := by
  have := crcRoundInv_crcRound hx
  have := crcRoundInv_crcRound hy
  rw [← crcRoundInv_crcRound hx, ← crcRoundInv_crcRound hy, h]

theorem crc_rounds8_lt {x : Nat} (h : x < 2 ^ 32) : crc_rounds8 x < 2 ^ 32 := by
  unfold crc_rounds8
  exact crcRound_lt (crcRound_lt (crcRound_lt (crcRound_lt
    (crcRound_lt (crcRound_lt (crcRound_lt (crcRound_lt h)))))))

theorem crc_rounds8_inj {x y : Nat} (hx : x < 2 ^ 32) (hy : y < 2 ^ 32)
    (h : crc_rounds8 x = crc_rounds8 y) : x = y := by
  unfold crc_rounds8 at h
  have l1 := crcRound_lt hx
  have l2 := crcRound_lt l1
  have l3 := crcRound_lt l2
  have l4 := crcRound_lt l3
  have l5 := crcRound_lt l4
  have l6 := crcRound_lt l5
  have l7 := crcRound_lt l6
  have r1 := crcRound_lt hy
  have r2 := crcRound_lt r1
  have r3 := crcRound_lt r2
  have r4 := crcRound_lt r3
  have r5 := crcRound_lt r4
  have r6 := crcRound_lt r5
  have r7 := crcRound_lt r6
  exact crcRound_inj hx hy (crcRound_inj l1 r1 (crcRound_inj l2 r2
    (crcRound_inj l3 r3 (crcRound_inj l4 r4 (crcRound_inj l5 r5
      (crcRound_inj l6 r6 (crcRound_inj l7 r7 h)))))))

theorem crcByteStep_lt {s b : Nat} (hs : s < 2 ^ 32) (hb : b < 256) :
    crcByteStep s b < 2 ^ 32 :=
  crc_rounds8_lt (Nat.xor_lt_two_pow hs (by omega))

theorem crcByteStep_inj_state {s s' b : Nat} (hs : s < 2 ^ 32) (hs' : s' < 2 ^ 32)
    (hb : b < 256) (hne : s ≠ s') : crcByteStep s b ≠ crcByteStep s' b := by
  intro h
  have hxb : b < 2 ^ 32 := by omega
  have := crc_rounds8_inj (Nat.xor_lt_two_pow hs hxb) (Nat.xor_lt_two_pow hs' hxb) h
  exact hne (by
    have := congrArg (· ^^^ b) this
    simpa [Nat.xor_assoc] using this)

theorem crcByteStep_inj_byte {s b b' : Nat} (hs : s < 2 ^ 32) (hb : b < 256)
    (hb' : b' < 256) (hne : b ≠ b') : crcByteStep s b ≠ crcByteStep s b' := by
  intro h
  have := crc_rounds8_inj (Nat.xor_lt_two_pow hs (by omega))
    (Nat.xor_lt_two_pow hs (by omega)) h
  exact hne (by
    have := congrArg (s ^^^ ·) this
    simpa [← Nat.xor_assoc] using this)

theorem crcLoop_lt {msg : List Nat} (hm : ∀ b ∈ msg, b < 256) :
    ∀ {s : Nat}, s < 2 ^ 32 → crcLoop msg s < 2 ^ 32 := by
  induction msg with
  | nil => intro s hs; exact hs
  | cons b rest ih =>
    intro s hs
    exact ih (fun x hx => hm x (List.mem_cons_of_mem _ hx))
      (crcByteStep_lt hs (hm b (List.mem_cons_self _ _)))

theorem crcLoop_inj {msg : List Nat} (hm : ∀ b ∈ msg, b < 256) :
    ∀ {s s' : Nat}, s < 2 ^ 32 → s' < 2 ^ 32 → s ≠ s' →
      crcLoop msg s ≠ crcLoop msg s' := by
  induction msg with
  | nil => intro s s' _ _ hne; exact hne
  | cons b rest ih =>
    intro s s' hs hs' hne
    have hb : b < 256 := hm b (List.mem_cons_self _ _)
    exact ih (fun x hx => hm x (List.mem_cons_of_mem _ hx))
      (crcByteStep_lt hs hb) (crcByteStep_lt hs' hb)
      (crcByteStep_inj_state hs hs' hb hne)

theorem crcLoop_append (xs ys : List Nat) (s : Nat) :
    crcLoop (xs ++ ys) s = crcLoop ys (crcLoop xs s) := by
  induction xs generalizing s with
  | nil => rfl
  | cons b rest ih => simp [crcLoop, ih]

/-- Changing one byte of the message changes the CRC state. -/
theorem crcLoop_set_ne {msg : List Nat} (hm : ∀ b ∈ msg, b < 256) :
    ∀ {i : Nat} {v : Nat} {s : Nat}, i < msg.length → v < 256 →
      v ≠ msg.getD i 0 → s < 2 ^ 32 →
      crcLoop (msg.set i v) s ≠ crcLoop msg s := by
  induction msg with
  | nil => intro i v s h; simp at h
  | cons b rest ih =>
    intro i v s hi hv hne hs
    have hb : b < 256 := hm b (List.mem_cons_self _ _)
    have hrest : ∀ x ∈ rest, x < 256 := fun x hx => hm x (List.mem_cons_of_mem _ hx)
    match i with
    | 0 =>
      simp only [List.getD_cons_zero] at hne
      simp only [List.set_cons_zero, crcLoop]
      exact crcLoop_inj hrest (crcByteStep_lt hs hv) (crcByteStep_lt hs hb)
        (crcByteStep_inj_byte hs hv hb hne)
    | i + 1 =>
      simp only [List.getD_cons_succ] at hne
      simp only [List.set_cons_succ, crcLoop]
      exact ih hrest (by simpa using hi) hv hne (crcByteStep_lt hs hb)

theorem crc32_lt {msg : List Nat} (hm : ∀ b ∈ msg, b < 256) : crc32 msg < 2 ^ 32 :=
  Nat.xor_lt_two_pow (crcLoop_lt hm (by decide)) (by decide)

/-- Changing one byte of the message changes the final CRC-32 value. -/
theorem crc32_set_ne {msg : List Nat} (hm : ∀ b ∈ msg, b < 256)
    {i v : Nat} (hi : i < msg.length) (hv : v < 256) (hne : v ≠ msg.getD i 0) :
    crc32 (msg.set i v) ≠ crc32 msg := by
  intro h
  have h' : crcLoop (msg.set i v) 0xFFFFFFFF = crcLoop msg 0xFFFFFFFF := by
    have := congrArg (· ^^^ 0xFFFFFFFF) h
    simpa [crc32, Nat.xor_assoc] using this
  exact crcLoop_set_ne hm hi hv hne (by decide) h'

/-- Runs of zero bytes leave a zero CRC state unchanged. -/
theorem crcLoop_replicate_zero (n : Nat) : crcLoop (List.replicate n 0) 0 = 0 := by
  induction n with
  | zero => rfl
  | succ n ih =>
    rw [List.replicate_succ]
    have hstep : crcByteStep 0 0 = 0 := by decide
    simp [crcLoop, hstep, ih]

/-! ## chunk.rs -/

/-- `chunk.rs::Chunk`: `length` and `crc` are `u32` values. -/
structure Chunk where
  length : Nat
  chunk_type : ChunkType
  chunk_data_bytes : List Nat
  crc : Nat
deriving DecidableEq

/-- `chunk.rs::ParseChunkError`. -/
structure ParseChunkError
deriving DecidableEq

/-- Outcome of running a Rust function that can return `Ok`, return `Err`, or
abort the whole process (a panic, e.g. through `.unwrap()` on an `Err`). -/
inductive ParseOutcome (ε α : Type) where
  | ok (a : α)
  | err (e : ε)
  | crash
deriving DecidableEq

/-- The part of `chunk.rs::Chunk::try_from` that runs after the length-field
consistency check has passed: parse the type bytes (`.unwrap()` — a panic,
modelled as `.crash` — when they are not letters), recompute the CRC over
`data[4..data_end_idx]` and compare it with the trailing 4 bytes. -/
def Chunk.parseAfterLengthCheck (data : List Nat) : ParseOutcome ParseChunkError Chunk :=
  let length := bytes_to_u32 [data.getD 0 0, data.getD 1 0, data.getD 2 0, data.getD 3 0]
  let data_end_idx := data.length - 4
  let chunk_data_bytes := (data.drop 8).take (data_end_idx - 8)
  match ChunkType.tryFrom [data.getD 4 0, data.getD 5 0, data.getD 6 0, data.getD 7 0] with
  | .error _ => .crash
  | .ok chunk_type =>
    let calculated_crc := crc32 ((data.drop 4).take (data_end_idx - 4))
    let crc := bytes_to_u32 [data.getD data_end_idx 0, data.getD (data_end_idx + 1) 0,
      data.getD (data_end_idx + 2) 0, data.getD (data_end_idx + 3) 0]
    if calculated_crc ≠ crc then .err ⟨⟩
    else .ok { length := length, chunk_type := chunk_type,
               chunk_data_bytes := chunk_data_bytes, crc := crc }

/-- `chunk.rs::Chunk::try_from(data: &Vec<u8>)`: reject buffers shorter than
12 bytes, then compare the declared length with `chunk_data_bytes.len() as
u32` (a truncating cast, modelled as `% 2^32`), then run the remaining
checks. -/
def Chunk.tryFrom (data : List Nat) : ParseOutcome ParseChunkError Chunk :=
  if data.length < 12 then .err ⟨⟩
  else
    let length := bytes_to_u32 [data.getD 0 0, data.getD 1 0, data.getD 2 0, data.getD 3 0]
    let chunk_data_bytes := (data.drop 8).take (data.length - 4 - 8)
    if chunk_data_bytes.length % 2 ^ 32 ≠ length then .err ⟨⟩
    else Chunk.parseAfterLengthCheck data

/-- `chunk.rs::Chunk::new`: `length` is `data.len() as u32` (truncating);
the CRC is computed over the type bytes spliced in front of the data. -/
def Chunk.new (chunk_type : ChunkType) (data : List Nat) : Chunk :=
  { length := data.length % 2 ^ 32
    chunk_type := chunk_type
    chunk_data_bytes := data
    crc := crc32 (chunk_type.bytes ++ data) }

/-- `chunk.rs::Chunk::as_bytes`: 4-byte big-endian length, 4 type bytes,
payload, 4-byte big-endian CRC. -/
def Chunk.as_bytes (c : Chunk) : List Nat :=
  u32_to_bytes c.length ++ c.chunk_type.bytes ++ c.chunk_data_bytes ++ u32_to_bytes c.crc

theorem payload_length (data : List Nat) (h12 : 12 ≤ data.length) :
    ((data.drop 8).take (data.length - 4 - 8)).length = data.length - 12 := by
  simp only [List.length_take, List.length_drop]
  omega

/-- Inversion for a successful `Chunk::try_from`. -/
theorem Chunk.tryFrom_ok_fields {data : List Nat} {c : Chunk}
    (h : Chunk.tryFrom data = .ok c) :
    12 ≤ data.length ∧
    (data.length - 12) % 2 ^ 32
        = bytes_to_u32 [data.getD 0 0, data.getD 1 0, data.getD 2 0, data.getD 3 0] ∧
    ChunkType.tryFrom [data.getD 4 0, data.getD 5 0, data.getD 6 0, data.getD 7 0]
        = .ok c.chunk_type ∧
    c.length = bytes_to_u32 [data.getD 0 0, data.getD 1 0, data.getD 2 0, data.getD 3 0] ∧
    c.chunk_data_bytes = (data.drop 8).take (data.length - 4 - 8) ∧
    c.crc = bytes_to_u32 [data.getD (data.length - 4) 0, data.getD (data.length - 4 + 1) 0,
      data.getD (data.length - 4 + 2) 0, data.getD (data.length - 4 + 3) 0] ∧
    crc32 ((data.drop 4).take (data.length - 4 - 4)) = c.crc := by
  rw [Chunk.tryFrom] at h
  split at h
  · exact absurd h (by simp)
  · next h12 =>
    have h12' : 12 ≤ data.length := by omega
    refine ⟨h12', ?_⟩
    simp only [] at h
    split at h
    · exact absurd h (by simp)
    · next hlen =>
      rw [not_not] at hlen
      rw [payload_length data h12'] at hlen
      refine ⟨hlen, ?_⟩
      rw [Chunk.parseAfterLengthCheck] at h
      simp only [] at h
      split at h
      · exact absurd h (by simp)
      · next ct hty =>
        split at h
        · exact absurd h (by simp)
        · next hcrc =>
          rw [not_not] at hcrc
          rw [ParseOutcome.ok.injEq] at h
          subst h
          exact ⟨hty, rfl, rfl, rfl, hcrc⟩

/-- The `ChunkType` produced by parsing the bytes of `"RuSt"`. -/
def rustChunkType : ChunkType :=
  ChunkType.from_arr_bytes
    [u8_to_bits 82, u8_to_bits 117, u8_to_bits 83, u8_to_bits 116]

theorem tryFrom_rust : ChunkType.tryFrom [82, 117, 83, 116] = .ok rustChunkType := by
  decide

/-! ## Facts about `ChunkType::from_str` -/

theorem char_utf8Size_one_iff (c : Char) : c.utf8Size = 1 ↔ c.toNat ≤ 127 := by
  have key : (c.val ≤ UInt32.ofNatCore 0x7F (by decide)) ↔ c.toNat ≤ 127 := by
    rw [UInt32.le_def]
    rfl
  rw [Char.utf8Size]
  split
  · next h => simp only [key] at h; simp [h]
  · next h =>
    simp only [key] at h
    split <;> simp [h]
    split <;> simp [h]

theorem length_le_strByteLen (s : List Char) : s.length ≤ strByteLen s := by
  induction s with
  | nil => simp [strByteLen]
  | cons c rest ih =>
    have := Char.utf8Size_pos c
    simp only [strByteLen, List.map_cons, List.sum_cons, List.length_cons]
    simp only [strByteLen] at ih
    omega

theorem strToBytes_four (a b c d : Char) :
    ChunkType.strToBytes [a, b, c, d]
      = [char_to_u8 a, char_to_u8 b, char_to_u8 c, char_to_u8 d] := rfl

theorem char_to_u8_of_le {c : Char} (h : c.toNat ≤ 127) : char_to_u8 c = c.toNat := by
  rw [char_to_u8]
  omega

/-- Success condition of `ChunkType::from_str`: exactly 4 characters, all
ASCII letters. -/
theorem ChunkType.from_str_ok_iff (s : List Char) :
    ChunkType.from_str s ≠ .error ⟨⟩ ↔
      s.length = 4 ∧ ∀ c ∈ s, letterByte c.toNat := by
  constructor
  · intro h
    rw [ChunkType.from_str] at h
    by_cases hlen : strByteLen s = 4
    case neg => rw [if_pos hlen] at h; exact absurd rfl h
    rw [if_neg (by simp [hlen])] at h
    match hres : ChunkType.tryFrom (ChunkType.strToBytes s) with
    | .error e => rw [hres] at h; exact absurd rfl h
    | .ok ct =>
      obtain ⟨b0, b1, b2, b3, heq, l0, l1, l2, l3, -⟩ := ChunkType.tryFrom_ok_cases hres
      match s with
      | [] =>
        have : (0 : Nat) = b0 := by simpa [ChunkType.strToBytes] using congrArg (·.getD 0 0) heq
        exact absurd (this ▸ l0) (by simp [letterByte])
      | [c1] =>
        have : (0 : Nat) = b1 := by simpa [ChunkType.strToBytes] using congrArg (·.getD 1 0) heq
        exact absurd (this ▸ l1) (by simp [letterByte])
      | [c1, c2] =>
        have : (0 : Nat) = b2 := by simpa [ChunkType.strToBytes] using congrArg (·.getD 2 0) heq
        exact absurd (this ▸ l2) (by simp [letterByte])
      | [c1, c2, c3] =>
        have : (0 : Nat) = b3 := by simpa [ChunkType.strToBytes] using congrArg (·.getD 3 0) heq
        exact absurd (this ▸ l3) (by simp [letterByte])
      | c1 :: c2 :: c3 :: c4 :: c5 :: tl =>
        have hge := length_le_strByteLen (c1 :: c2 :: c3 :: c4 :: c5 :: tl)
        simp only [List.length_cons] at hge
        omega
      | [c1, c2, c3, c4] =>
        rw [strToBytes_four] at heq
        have s1 := Char.utf8Size_pos c1
        have s2 := Char.utf8Size_pos c2
        have s3 := Char.utf8Size_pos c3
        have s4 := Char.utf8Size_pos c4
        have hsum : c1.utf8Size + (c2.utf8Size + (c3.utf8Size + c4.utf8Size)) = 4 := by
          simpa [strByteLen] using hlen
        have e1 : c1.utf8Size = 1 := by omega
        have e2 : c2.utf8Size = 1 := by omega
        have e3 : c3.utf8Size = 1 := by omega
        have e4 : c4.utf8Size = 1 := by omega
        rw [char_utf8Size_one_iff] at e1 e2 e3 e4
        rw [char_to_u8_of_le e1, char_to_u8_of_le e2, char_to_u8_of_le e3,
          char_to_u8_of_le e4] at heq
        injection heq with h1 heq
        injection heq with h2 heq
        injection heq with h3 heq
        injection heq with h4 heq
        subst h1; subst h2; subst h3; subst h4
        refine ⟨rfl, ?_⟩
        intro c hc
        simp only [List.mem_cons, List.not_mem_nil, or_false] at hc
        rcases hc with rfl | rfl | rfl | rfl
        · exact l0
        · exact l1
        · exact l2
        · exact l3
  · rintro ⟨hlen4, hlet⟩
    match s with
    | [c1, c2, c3, c4] =>
      have l1 := hlet c1 (by simp)
      have l2 := hlet c2 (by simp)
      have l3 := hlet c3 (by simp)
      have l4 := hlet c4 (by simp)
      have e1 : c1.utf8Size = 1 := (char_utf8Size_one_iff c1).mpr (by
        rcases l1 with ⟨_, _⟩ | ⟨_, _⟩ <;> omega)
      have e2 : c2.utf8Size = 1 := (char_utf8Size_one_iff c2).mpr (by
        rcases l2 with ⟨_, _⟩ | ⟨_, _⟩ <;> omega)
      have e3 : c3.utf8Size = 1 := (char_utf8Size_one_iff c3).mpr (by
        rcases l3 with ⟨_, _⟩ | ⟨_, _⟩ <;> omega)
      have e4 : c4.utf8Size = 1 := (char_utf8Size_one_iff c4).mpr (by
        rcases l4 with ⟨_, _⟩ | ⟨_, _⟩ <;> omega)
      rw [ChunkType.from_str, if_neg (by simp [strByteLen, e1, e2, e3, e4]),
        strToBytes_four,
        char_to_u8_of_le ((char_utf8Size_one_iff c1).mp e1),
        char_to_u8_of_le ((char_utf8Size_one_iff c2).mp e2),
        char_to_u8_of_le ((char_utf8Size_one_iff c3).mp e3),
        char_to_u8_of_le ((char_utf8Size_one_iff c4).mp e4),
        ChunkType.tryFrom_letters l1 l2 l3 l4]
      simp

/-! ## Claim C6 -/

/-- The 4-character string `"RuS" ++ 'Ł'`: four characters, each of which
maps to an ASCII-letter byte under the truncating `char as u8` conversion
(`'Ł'` is U+0141 = 321, and `321 % 256 = 65 = 'A'`). -/
def fourLetterish : List Char := ['R', 'u', 'S', Char.ofNat 321]

/-- C6 counterexample: `fourLetterish` has exactly 4 characters, each mapping
to an ASCII-letter byte by the direct character-to-byte-code conversion, yet
`ChunkType::from_str` fails on it (its UTF-8 byte length is 5, and the
length gate tests UTF-8 bytes, not characters). -/
theorem chunk_type_from_str_counterexample :
    fourLetterish.length = 4 ∧ (∀ c ∈ fourLetterish, letterByte (char_to_u8 c)) ∧
    ChunkType.from_str fourLetterish = .error ⟨⟩ :=
  ⟨rfl, by decide, by decide⟩

/-- C6 (amended): `ChunkType::try_from` on a 4-byte array succeeds iff every
byte is an ASCII letter, and `ChunkType::from_str` succeeds iff the string
consists of exactly 4 characters each of which IS an ASCII letter — the
length gate is on the UTF-8 byte length, so a 4-character string containing
a multi-byte character fails even when every character truncates to an
ASCII-letter byte code.  All failures are the `ParseChunkTypeError` value. -/
theorem chunk_type_construction_gate_amended :
    (∀ nums : List Nat, ChunkType.tryFrom nums ≠ .error ⟨⟩ ↔
      nums.length = 4 ∧ ∀ b ∈ nums, letterByte b) ∧
    (∀ s : List Char, ChunkType.from_str s ≠ .error ⟨⟩ ↔
      s.length = 4 ∧ ∀ c ∈ s, letterByte c.toNat) := by
  refine ⟨fun nums => ⟨?_, ?_⟩, ChunkType.from_str_ok_iff⟩
  · intro h
    match hres : ChunkType.tryFrom nums with
    | .error e => rw [hres] at h; exact absurd rfl h
    | .ok ct =>
      obtain ⟨b0, b1, b2, b3, rfl, l0, l1, l2, l3, -⟩ := ChunkType.tryFrom_ok_cases hres
      refine ⟨rfl, ?_⟩
      intro b hb
      simp only [List.mem_cons, List.not_mem_nil, or_false] at hb
      rcases hb with rfl | rfl | rfl | rfl
      · exact l0
      · exact l1
      · exact l2
      · exact l3
  · rintro ⟨hlen, hlet⟩
    match nums with
    | [b0, b1, b2, b3] =>
      rw [ChunkType.tryFrom_letters (hlet b0 (by simp)) (hlet b1 (by simp))
        (hlet b2 (by simp)) (hlet b3 (by simp))]
      simp

/-- C6 witness: both constructors succeed on `"RuSt"`. -/
theorem chunk_type_construction_gate_amended_witness :
    ChunkType.tryFrom [82, 117, 83, 116] ≠ .error ⟨⟩ ∧
    ChunkType.from_str ['R', 'u', 'S', 't'] ≠ .error ⟨⟩ :=
  ⟨(chunk_type_construction_gate_amended.1 [82, 117, 83, 116]).mpr (by decide),
   (chunk_type_construction_gate_amended.2 ['R', 'u', 'S', 't']).mpr (by decide)⟩

/-! ## Claim C7 -/

/-- C7: for every 4-byte array of ASCII letters, `ChunkType::try_from`
succeeds and `bytes()` returns exactly the input bytes in order. -/
theorem chunk_type_bytes_roundtrip (b0 b1 b2 b3 : Nat)
    (h0 : letterByte b0) (h1 : letterByte b1) (h2 : letterByte b2) (h3 : letterByte b3) :
    Except.map ChunkType.bytes (ChunkType.tryFrom [b0, b1, b2, b3])
      = .ok [b0, b1, b2, b3] := by
  rw [ChunkType.tryFrom_letters h0 h1 h2 h3]
  simp [Except.map, ChunkType.bytes_from_arr h0 h1 h2 h3]

/-- C7 witness at the `"RuSt"` bytes. -/
theorem chunk_type_bytes_roundtrip_witness :
    Except.map ChunkType.bytes (ChunkType.tryFrom [82, 117, 83, 116])
      = .ok [82, 117, 83, 116] :=
  chunk_type_bytes_roundtrip 82 117 83 116 (by decide) (by decide) (by decide) (by decide)

/-! ## Claim C8 -/

theorem letter_testBit5 : ∀ b < 123, letterByte b → b.testBit 5 = decide (97 ≤ b) := by
  decide

/-- C8: for a ChunkType built from letter bytes `[b0, b1, b2, b3]`,
`is_critical` holds iff `b0` is uppercase, `is_public` iff `b1` is uppercase,
`is_reserved_bit_valid` iff `b2` is uppercase, and `is_safe_to_copy` iff `b3`
is lowercase. -/
theorem chunk_type_property_accessors (b0 b1 b2 b3 : Nat) (ct : ChunkType)
    (h0 : letterByte b0) (h1 : letterByte b1) (h2 : letterByte b2) (h3 : letterByte b3)
    (h : ChunkType.tryFrom [b0, b1, b2, b3] = .ok ct) :
    (ct.is_critical = true ↔ 65 ≤ b0 ∧ b0 ≤ 90) ∧
    (ct.is_public = true ↔ 65 ≤ b1 ∧ b1 ≤ 90) ∧
    (ct.is_reserved_bit_valid = some true ↔ 65 ≤ b2 ∧ b2 ≤ 90) ∧
    (ct.is_safe_to_copy = true ↔ 97 ≤ b3 ∧ b3 ≤ 122) := by
  rw [ChunkType.tryFrom_letters h0 h1 h2 h3, Except.ok.injEq] at h
  subst h
  have t0 := letter_testBit5 b0 (letterByte_lt123 h0) h0
  have t1 := letter_testBit5 b1 (letterByte_lt123 h1) h1
  have t2 := letter_testBit5 b2 (letterByte_lt123 h2) h2
  have t3 := letter_testBit5 b3 (letterByte_lt123 h3) h3
  have r2 : bits_to_byte (u8_to_bits b2) = b2 := bits_to_byte_u8_to_bits _ (letterByte_lt h2)
  have hbad2 : badTypeByte b2 = false := (badTypeByte_eq_false_iff b2).mpr h2
  have g0 : (u8_to_bits b0).getD 2 false = b0.testBit 5 := rfl
  have g1 : (u8_to_bits b1).getD 2 false = b1.testBit 5 := rfl
  have g2 : (u8_to_bits b2).getD 2 false = b2.testBit 5 := rfl
  have g3 : (u8_to_bits b3).getD 2 false = b3.testBit 5 := rfl
  refine ⟨?_, ?_, ?_, ?_⟩
  · simp only [ChunkType.is_critical, ChunkType.from_arr_bytes,
      List.getD_cons_zero, List.getD_cons_succ, g0, t0, Bool.not_eq_eq_eq_not,
      Bool.not_true, decide_eq_false_iff_not, not_le]
    rcases h0 with ⟨_, _⟩ | ⟨_, _⟩ <;> omega
  · simp only [ChunkType.is_public, ChunkType.from_arr_bytes,
      List.getD_cons_zero, List.getD_cons_succ, g1, t1, Bool.not_eq_eq_eq_not,
      Bool.not_true, decide_eq_false_iff_not, not_le]
    rcases h1 with ⟨_, _⟩ | ⟨_, _⟩ <;> omega
  · simp only [ChunkType.is_reserved_bit_valid, ChunkType.is_valid,
      ChunkType.from_arr_bytes, List.getD_cons_zero, List.getD_cons_succ,
      r2, hbad2, Bool.false_eq_true, if_false, Option.some.injEq, g2, t2,
      Bool.not_eq_eq_eq_not, Bool.not_true, decide_eq_false_iff_not, not_le]
    rcases h2 with ⟨_, _⟩ | ⟨_, _⟩ <;> omega
  · simp only [ChunkType.is_safe_to_copy, ChunkType.from_arr_bytes,
      List.getD_cons_zero, List.getD_cons_succ, g3, t3, decide_eq_true_eq]
    rcases h3 with ⟨_, _⟩ | ⟨_, _⟩ <;> omega

/-- C8 witness at the `"RuSt"` bytes (critical, not public, reserved bit
valid, safe to copy). -/
theorem chunk_type_property_accessors_witness :
    (rustChunkType.is_critical = true ↔ 65 ≤ 82 ∧ 82 ≤ 90) ∧
    (rustChunkType.is_public = true ↔ 65 ≤ 117 ∧ 117 ≤ 90) ∧
    (rustChunkType.is_reserved_bit_valid = some true ↔ 65 ≤ 83 ∧ 83 ≤ 90) ∧
    (rustChunkType.is_safe_to_copy = true ↔ 97 ≤ 116 ∧ 116 ≤ 122) :=
  chunk_type_property_accessors 82 117 83 116 rustChunkType
    (by decide) (by decide) (by decide) (by decide) (by decide)

/-! ## Claim C9 -/

/-- C9: on every ChunkType obtained through a public constructor, the
accessors containing the panic branch (`is_valid`, and
`is_reserved_bit_valid` which delegates to it) return a value — the panic is
unreachable because construction guarantees all four bytes are letters. -/
theorem chunk_type_accessor_no_panic :
    (∀ (nums : List Nat) (ct : ChunkType), ChunkType.tryFrom nums = .ok ct →
      ct.is_valid.isSome = true ∧ ct.is_reserved_bit_valid.isSome = true) ∧
    (∀ (s : List Char) (ct : ChunkType), ChunkType.from_str s = .ok ct →
      ct.is_valid.isSome = true ∧ ct.is_reserved_bit_valid.isSome = true) := by
  have main : ∀ (nums : List Nat) (ct : ChunkType), ChunkType.tryFrom nums = .ok ct →
      ct.is_valid.isSome = true ∧ ct.is_reserved_bit_valid.isSome = true := by
    intro nums ct h
    obtain ⟨b0, b1, b2, b3, rfl, l0, l1, l2, l3, rfl⟩ := ChunkType.tryFrom_ok_cases h
    have r2 : bits_to_byte (u8_to_bits b2) = b2 := bits_to_byte_u8_to_bits _ (letterByte_lt l2)
    have hbad2 : badTypeByte b2 = false := (badTypeByte_eq_false_iff b2).mpr l2
    constructor <;>
      simp [ChunkType.is_valid, ChunkType.is_reserved_bit_valid,
        ChunkType.from_arr_bytes, r2, hbad2]
  refine ⟨main, fun s ct h => ?_⟩
  rw [ChunkType.from_str] at h
  split at h
  · exact absurd h (by simp)
  · exact main _ ct h

/-- C9 witness at the `"RuSt"` ChunkType. -/
theorem chunk_type_accessor_no_panic_witness :
    rustChunkType.is_valid.isSome = true ∧
    rustChunkType.is_reserved_bit_valid.isSome = true :=
  chunk_type_accessor_no_panic.1 [82, 117, 83, 116] rustChunkType (by decide)

theorem getD_append_four (l : List Nat) (c0 c1 c2 c3 : Nat) :
    (l ++ [c0, c1, c2, c3]).getD l.length 0 = c0 ∧
    (l ++ [c0, c1, c2, c3]).getD (l.length + 1) 0 = c1 ∧
    (l ++ [c0, c1, c2, c3]).getD (l.length + 2) 0 = c2 ∧
    (l ++ [c0, c1, c2, c3]).getD (l.length + 3) 0 = c3 := by
  refine ⟨?_, ?_, ?_, ?_⟩ <;>
  · rw [List.getD_eq_getElem?_getD, List.getElem?_append_right (by omega)]
    simp

/-- Parsing a buffer laid out as `length bytes ++ type bytes ++ payload ++
crc bytes` succeeds when the declared length matches the payload length mod
`2^32`, the type bytes parse, and the crc bytes match the computed CRC. -/
theorem Chunk.tryFrom_layout (e0 e1 e2 e3 b0 b1 b2 b3 c0 c1 c2 c3 : Nat)
    (payload : List Nat) (ct : ChunkType)
    (hdecl : payload.length % 2 ^ 32 = bytes_to_u32 [e0, e1, e2, e3])
    (hty : ChunkType.tryFrom [b0, b1, b2, b3] = .ok ct)
    (hcrc : crc32 ([b0, b1, b2, b3] ++ payload) = bytes_to_u32 [c0, c1, c2, c3]) :
    Chunk.tryFrom (e0 :: e1 :: e2 :: e3 :: b0 :: b1 :: b2 :: b3 ::
        (payload ++ [c0, c1, c2, c3]))
      = .ok { length := bytes_to_u32 [e0, e1, e2, e3], chunk_type := ct,
              chunk_data_bytes := payload, crc := bytes_to_u32 [c0, c1, c2, c3] } := by
  have hlen : (e0 :: e1 :: e2 :: e3 :: b0 :: b1 :: b2 :: b3 ::
      (payload ++ [c0, c1, c2, c3])).length = payload.length + 12 := by
    simp only [List.length_cons, List.length_append, List.length_nil]
  simp only [List.cons_append, List.nil_append] at hcrc
  rw [Chunk.tryFrom]
  simp only [hlen]
  rw [if_neg (by omega)]
  simp only [List.getD_cons_zero, List.getD_cons_succ, List.drop_succ_cons,
    List.drop_zero]
  have harith1 : payload.length + 12 - 4 - 8 = payload.length := by omega
  simp only [harith1, List.take_left]
  rw [if_neg (not_ne_iff.mpr hdecl)]
  rw [Chunk.parseAfterLengthCheck]
  simp only [hlen]
  have harith2 : payload.length + 12 - 4 = payload.length + 8 := by omega
  have harith3 : payload.length + 8 - 4 = payload.length + 4 := by omega
  have harith4 : payload.length + 8 - 8 = payload.length := by omega
  simp only [harith2, harith3, harith4]
  simp only [List.getD_cons_zero, List.getD_cons_succ, hty,
    List.drop_succ_cons, List.drop_zero, List.take_succ_cons, List.take_left,
    (getD_append_four payload c0 c1 c2 c3).1,
    (getD_append_four payload c0 c1 c2 c3).2.1,
    (getD_append_four payload c0 c1 c2 c3).2.2.1,
    (getD_append_four payload c0 c1 c2 c3).2.2.2]
  rw [if_neg (not_ne_iff.mpr hcrc)]

/-- A buffer in serialized layout with consistent fields parses to the
corresponding chunk. -/
theorem Chunk.tryFrom_serialized (b0 b1 b2 b3 : Nat) (payload : List Nat)
    (ct : ChunkType) (L C : Nat)
    (hdecl : payload.length % 2 ^ 32 = L) (hL : L < 2 ^ 32) (hC : C < 2 ^ 32)
    (hty : ChunkType.tryFrom [b0, b1, b2, b3] = .ok ct)
    (hcrc : crc32 ([b0, b1, b2, b3] ++ payload) = C) :
    Chunk.tryFrom (u32_to_bytes L ++ [b0, b1, b2, b3] ++ payload ++ u32_to_bytes C)
      = .ok { length := L, chunk_type := ct, chunk_data_bytes := payload, crc := C } := by
  obtain ⟨a0, a1, a2, a3, hu⟩ : ∃ a0 a1 a2 a3, u32_to_bytes L = [a0, a1, a2, a3] :=
    ⟨_, _, _, _, rfl⟩
  obtain ⟨k0, k1, k2, k3, hk⟩ : ∃ k0 k1 k2 k3, u32_to_bytes C = [k0, k1, k2, k3] :=
    ⟨_, _, _, _, rfl⟩
  have ha : bytes_to_u32 [a0, a1, a2, a3] = L := by
    rw [← hu]; exact bytes_to_u32_u32_to_bytes hL
  have hkk : bytes_to_u32 [k0, k1, k2, k3] = C := by
    rw [← hk]; exact bytes_to_u32_u32_to_bytes hC
  have hmain := Chunk.tryFrom_layout a0 a1 a2 a3 b0 b1 b2 b3 k0 k1 k2 k3 payload ct
    (by rw [ha]; exact hdecl) hty (by rw [hkk]; exact hcrc)
  rw [ha, hkk] at hmain
  rw [hu, hk]
  simpa only [List.cons_append, List.nil_append] using hmain

/-! ## Claim C1 -/

/-- C1: for every `ChunkType` obtained from the constructor and every byte
payload, `Chunk::new` followed by `as_bytes` followed by `Chunk::try_from`
reproduces the chunk exactly (same length, type, payload and CRC). -/
theorem chunk_roundtrip_parse_serialize (nums : List Nat) (ct : ChunkType)
    (d : List Nat) (hct : ChunkType.tryFrom nums = .ok ct)
    (hd : ∀ b ∈ d, b < 256) :
    Chunk.tryFrom (Chunk.new ct d).as_bytes = .ok (Chunk.new ct d) := by
  obtain ⟨b0, b1, b2, b3, rfl, l0, l1, l2, l3, rfl⟩ := ChunkType.tryFrom_ok_cases hct
  have hbytes := ChunkType.bytes_from_arr l0 l1 l2 l3
  have hty := ChunkType.tryFrom_letters l0 l1 l2 l3
  have hmem : ∀ x ∈ [b0, b1, b2, b3] ++ d, x < 256 := by
    intro x hx
    rcases List.mem_append.mp hx with hx | hx
    · simp only [List.mem_cons, List.not_mem_nil, or_false] at hx
      rcases hx with rfl | rfl | rfl | rfl
      exacts [letterByte_lt l0, letterByte_lt l1, letterByte_lt l2, letterByte_lt l3]
    · exact hd x hx
  rw [Chunk.as_bytes]
  simp only [Chunk.new, hbytes]
  exact Chunk.tryFrom_serialized b0 b1 b2 b3 d _ _ _ rfl
    (Nat.mod_lt _ (by norm_num)) (crc32_lt hmem) hty rfl

/-- C1 witness: round trip of the `"RuSt"` chunk with payload `[1, 2, 3]`. -/
theorem chunk_roundtrip_parse_serialize_witness :
    Chunk.tryFrom (Chunk.new rustChunkType [1, 2, 3]).as_bytes
      = .ok (Chunk.new rustChunkType [1, 2, 3]) :=
  chunk_roundtrip_parse_serialize [82, 117, 83, 116] rustChunkType [1, 2, 3]
    (by decide) (by decide)

theorem getD_of_lt (l : List Nat) (n : Nat) (h : n < l.length) : l.getD n 0 = l[n] := by
  rw [List.getD_eq_getElem?_getD, List.getElem?_eq_getElem h]
  rfl

/-- The CRC input region `data[4..len-4]` is the four type bytes followed by
the payload region `data[8..len-4]`. -/
theorem crcRegion_decomp (data : List Nat) (h12 : 12 ≤ data.length) :
    (data.drop 4).take (data.length - 4 - 4)
      = data.getD 4 0 :: data.getD 5 0 :: data.getD 6 0 :: data.getD 7 0 ::
        (data.drop 8).take (data.length - 4 - 8) := by
  have h4 : 4 < data.length := by omega
  have h5 : 5 < data.length := by omega
  have h6 : 6 < data.length := by omega
  have h7 : 7 < data.length := by omega
  have hdrop : data.drop 4 = data.getD 4 0 :: data.getD 5 0 :: data.getD 6 0 ::
      data.getD 7 0 :: data.drop 8 := by
    rw [getD_of_lt _ _ h4, getD_of_lt _ _ h5, getD_of_lt _ _ h6, getD_of_lt _ _ h7]
    rw [List.drop_eq_getElem_cons h4,
      List.drop_eq_getElem_cons (show 4 + 1 < data.length by omega),
      List.drop_eq_getElem_cons (show 4 + 1 + 1 < data.length by omega),
      List.drop_eq_getElem_cons (show 4 + 1 + 1 + 1 < data.length by omega)]
  rw [hdrop]
  have e1 : data.length - 4 - 4 = (data.length - 4 - 8) + 4 := by omega
  rw [e1]
  simp only [List.take_succ_cons]

/-! ## Claim C2 -/

/-- C2 counterexample: a chunk built from a payload of `2^32` bytes stores
`length = 0`, not the payload size — the claimed invariant
`length == data.len()` fails. -/
theorem chunk_length_invariant_counterexample :
    (Chunk.new rustChunkType (List.replicate (2 ^ 32) 0)).length
      ≠ (List.replicate (2 ^ 32) 0).length := by
  simp only [Chunk.new, List.length_replicate, Nat.mod_self]
  norm_num

/-- C2 (amended): every observable `Chunk` satisfies
`length = data.len() % 2^32` (equality with `data.len()` itself whenever the
payload is shorter than `2^32` bytes) and `crc` equals the CRC-32/ISO-HDLC
checksum of the 4 type bytes followed by the payload bytes. -/
theorem chunk_invariant_mod (ct : ChunkType) (d : List Nat) (data : List Nat)
    (c : Chunk) (h : Chunk.tryFrom data = .ok c) :
    (Chunk.new ct d).length = d.length % 2 ^ 32 ∧
    (Chunk.new ct d).crc = crc32 ((Chunk.new ct d).chunk_type.bytes ++ d) ∧
    c.length = c.chunk_data_bytes.length % 2 ^ 32 ∧
    c.crc = crc32 (c.chunk_type.bytes ++ c.chunk_data_bytes) := by
  obtain ⟨h12, hlen, hty, hclen, hdata, -, hcrc⟩ := Chunk.tryFrom_ok_fields h
  refine ⟨rfl, rfl, ?_, ?_⟩
  · rw [hclen, hdata, payload_length data h12, ← hlen]
  · rw [← hcrc, crcRegion_decomp data h12, ← hdata]
    obtain ⟨b0, b1, b2, b3, heq, l0, l1, l2, l3, hct⟩ := ChunkType.tryFrom_ok_cases hty
    have hbytes : c.chunk_type.bytes = [data.getD 4 0, data.getD 5 0,
        data.getD 6 0, data.getD 7 0] := by
      injection heq with e0 heq
      injection heq with e1 heq
      injection heq with e2 heq
      injection heq with e3 heq
      rw [hct, ChunkType.bytes_from_arr l0 l1 l2 l3, e0, e1, e2, e3]
    rw [hbytes]
    simp [List.cons_append]

/-- The chunk parsed from the minimal 12-byte `"RuSt"` buffer (empty
payload; `crc32("RuSt") = 3565422908 = 0xD484093C`). -/
def rustEmptyChunk : Chunk :=
  { length := 0, chunk_type := rustChunkType, chunk_data_bytes := [], crc := 3565422908 }

/-- C2 witness: both halves instantiated — the freshly constructed `"RuSt"`
chunk with payload `[1, 2, 3]`, and the parsed 12-byte `"RuSt"` chunk. -/
theorem chunk_invariant_mod_witness :
    (Chunk.new rustChunkType [1, 2, 3]).length = [1, 2, 3].length % 2 ^ 32 ∧
    (Chunk.new rustChunkType [1, 2, 3]).crc
      = crc32 ((Chunk.new rustChunkType [1, 2, 3]).chunk_type.bytes ++ [1, 2, 3]) ∧
    rustEmptyChunk.length = rustEmptyChunk.chunk_data_bytes.length % 2 ^ 32 ∧
    rustEmptyChunk.crc
      = crc32 (rustEmptyChunk.chunk_type.bytes ++ rustEmptyChunk.chunk_data_bytes) :=
  chunk_invariant_mod rustChunkType [1, 2, 3]
    [0, 0, 0, 0, 82, 117, 83, 116, 212, 132, 9, 60] rustEmptyChunk (by decide)

/-! ## Claim C3 -/

/-- C3 (code bug): a 12-byte buffer whose declared length (0) matches its
empty payload but whose type bytes `"1111"` are not ASCII letters makes
`Chunk::try_from` abort the process — the `.unwrap()` on the failed
`ChunkType::try_from` panics instead of returning the `ParseChunkError` the
spec promises. -/
theorem chunk_invalid_type_bytes_panics :
    Chunk.tryFrom [0, 0, 0, 0, 49, 49, 49, 49, 0, 0, 0, 0] = .crash := by
  decide

theorem getD_mem_of_lt (l : List Nat) (n : Nat) (h : n < l.length) : l.getD n 0 ∈ l := by
  rw [getD_of_lt _ _ h]
  exact List.getElem_mem h

/-! ## Claim C10 -/

/-- C10: `Chunk::new` stores `length = data.len() % 2^32`, and the parse-time
length check compares the declared 32-bit length with the payload byte count
reduced mod `2^32`, so it passes (the parse proceeds to the remaining
checks) whenever the two agree modulo `2^32`. -/
theorem modular_length_bookkeeping :
    (∀ (ct : ChunkType) (d : List Nat), (Chunk.new ct d).length = d.length % 2 ^ 32) ∧
    (∀ data : List Nat, 12 ≤ data.length → (∀ b ∈ data, b < 256) →
      bytes_to_u32 [data.getD 0 0, data.getD 1 0, data.getD 2 0, data.getD 3 0]
          ≡ data.length - 12 [MOD 2 ^ 32] →
      Chunk.tryFrom data = Chunk.parseAfterLengthCheck data) := by
  refine ⟨fun ct d => rfl, fun data h12 hb hmod => ?_⟩
  have hlt : bytes_to_u32 [data.getD 0 0, data.getD 1 0, data.getD 2 0, data.getD 3 0]
      < 2 ^ 32 :=
    bytes_to_u32_lt (hb _ (getD_mem_of_lt data 0 (by omega)))
      (hb _ (getD_mem_of_lt data 1 (by omega)))
      (hb _ (getD_mem_of_lt data 2 (by omega)))
      (hb _ (getD_mem_of_lt data 3 (by omega)))
  have heq : (data.length - 12) % 2 ^ 32
      = bytes_to_u32 [data.getD 0 0, data.getD 1 0, data.getD 2 0, data.getD 3 0] := by
    have := hmod.symm
    rw [Nat.ModEq] at this
    rw [this, Nat.mod_eq_of_lt hlt]
  rw [Chunk.tryFrom]
  rw [if_neg (by omega)]
  simp only [payload_length data h12]
  rw [if_neg (not_ne_iff.mpr heq)]

/-! ## The oversized buffer -/

/-- Payload of the oversized buffer: the four CRC-forging bytes (processing
them from the state reached after `"RuSt"`, `0x2B7BF6C3`, drives the CRC
state to 0), followed by `2^32` zero bytes, which keep the state at 0. -/
def bigPayload : List Nat := 195 :: 246 :: 123 :: 43 :: List.replicate (2 ^ 32) 0

/-- A `2^32 + 16`-byte buffer: declared length 4, type `"RuSt"`, the
oversized payload, and a trailing CRC of `0xFFFFFFFF`. -/
def bigBuf : List Nat :=
  0 :: 0 :: 0 :: 4 :: 82 :: 117 :: 83 :: 116 :: (bigPayload ++ [255, 255, 255, 255])

/-- The chunk that `Chunk::try_from` produces from `bigBuf`: its stored
length is 4 while its payload holds `2^32 + 4` bytes. -/
def bigChunk : Chunk :=
  { length := 4, chunk_type := rustChunkType, chunk_data_bytes := bigPayload,
    crc := 4294967295 }

theorem bigPayload_length : bigPayload.length = 2 ^ 32 + 4 := by
  show (195 :: 246 :: 123 :: 43 :: List.replicate (2 ^ 32) 0).length = 2 ^ 32 + 4
  rw [List.length_cons, List.length_cons, List.length_cons, List.length_cons,
    List.length_replicate]

theorem bigBuf_length : bigBuf.length = 2 ^ 32 + 16 := by
  show (0 :: 0 :: 0 :: 4 :: 82 :: 117 :: 83 :: 116 ::
    (bigPayload ++ [255, 255, 255, 255])).length = 2 ^ 32 + 16
  rw [List.length_cons, List.length_cons, List.length_cons, List.length_cons,
    List.length_cons, List.length_cons, List.length_cons, List.length_cons,
    List.length_append, bigPayload_length, List.length_cons, List.length_cons,
    List.length_cons, List.length_cons, List.length_nil]

theorem crc_of_bigPayload :
    crc32 ([82, 117, 83, 116] ++ bigPayload) = 4294967295 := by
  have hsplit : [82, 117, 83, 116] ++ bigPayload
      = [82, 117, 83, 116, 195, 246, 123, 43] ++ List.replicate (2 ^ 32) 0 := rfl
  have hpre : crcLoop [82, 117, 83, 116, 195, 246, 123, 43] 0xFFFFFFFF = 0 := by decide
  rw [crc32, hsplit, crcLoop_append, hpre, crcLoop_replicate_zero, Nat.zero_xor]

theorem bigPayload_bytes : ∀ b ∈ bigPayload, b < 256 := by
  intro b hb
  simp only [bigPayload] at hb
  rcases List.mem_cons.mp hb with rfl | hb
  · omega
  rcases List.mem_cons.mp hb with rfl | hb
  · omega
  rcases List.mem_cons.mp hb with rfl | hb
  · omega
  rcases List.mem_cons.mp hb with rfl | hb
  · omega
  rw [List.eq_of_mem_replicate hb]
  omega

theorem bigBuf_bytes : ∀ b ∈ bigBuf, b < 256 := by
  intro b hb
  simp only [bigBuf] at hb
  rcases List.mem_cons.mp hb with rfl | hb
  · omega
  rcases List.mem_cons.mp hb with rfl | hb
  · omega
  rcases List.mem_cons.mp hb with rfl | hb
  · omega
  rcases List.mem_cons.mp hb with rfl | hb
  · omega
  rcases List.mem_cons.mp hb with rfl | hb
  · omega
  rcases List.mem_cons.mp hb with rfl | hb
  · omega
  rcases List.mem_cons.mp hb with rfl | hb
  · omega
  rcases List.mem_cons.mp hb with rfl | hb
  · omega
  rcases List.mem_append.mp hb with hb | hb
  · exact bigPayload_bytes b hb
  rcases List.mem_cons.mp hb with rfl | hb
  · omega
  rcases List.mem_cons.mp hb with rfl | hb
  · omega
  rcases List.mem_cons.mp hb with rfl | hb
  · omega
  rcases List.mem_cons.mp hb with rfl | hb
  · omega
  exact absurd hb (List.not_mem_nil b)

/-- C10 witness: the length field of a `2^32`-byte construction, and the
oversized buffer passing the length check with a wrapped declared length. -/
theorem modular_length_bookkeeping_witness :
    (Chunk.new rustChunkType (List.replicate (2 ^ 32) 0)).length
      = (List.replicate (2 ^ 32) 0).length % 2 ^ 32 ∧
    Chunk.tryFrom bigBuf = Chunk.parseAfterLengthCheck bigBuf :=
  ⟨modular_length_bookkeeping.1 rustChunkType (List.replicate (2 ^ 32) 0),
   modular_length_bookkeeping.2 bigBuf
     (by rw [bigBuf_length]; norm_num)
     bigBuf_bytes
     (by
       have h1 : bytes_to_u32 [bigBuf.getD 0 0, bigBuf.getD 1 0, bigBuf.getD 2 0,
           bigBuf.getD 3 0] = 4 := by decide
       rw [h1, bigBuf_length, Nat.ModEq]
       norm_num)⟩

/-! ## Claim C5 -/

/-- C5 counterexample: `bigBuf`'s declared length field (4) is not its total
length minus 12 (which is `2^32 + 4`), yet `Chunk::try_from` parses it
successfully — the length check only compares modulo `2^32`. -/
theorem length_enforcement_counterexample :
    bytes_to_u32 [bigBuf.getD 0 0, bigBuf.getD 1 0, bigBuf.getD 2 0, bigBuf.getD 3 0]
      ≠ bigBuf.length - 12 ∧
    Chunk.tryFrom bigBuf = .ok bigChunk := by
  constructor
  · have h1 : bytes_to_u32 [bigBuf.getD 0 0, bigBuf.getD 1 0, bigBuf.getD 2 0,
        bigBuf.getD 3 0] = 4 := by decide
    rw [h1, bigBuf_length]
    norm_num
  · have hdecl : bigPayload.length % 2 ^ 32 = bytes_to_u32 [0, 0, 0, 4] := by
      rw [bigPayload_length]
      norm_num [bytes_to_u32_eval]
    have hcrc : crc32 ([82, 117, 83, 116] ++ bigPayload)
        = bytes_to_u32 [255, 255, 255, 255] := by
      rw [crc_of_bigPayload]
      norm_num [bytes_to_u32_eval]
    have h := Chunk.tryFrom_layout 0 0 0 4 82 117 83 116 255 255 255 255
      bigPayload rustChunkType hdecl tryFrom_rust hcrc
    have e1 : bytes_to_u32 [0, 0, 0, 4] = 4 := by decide
    have e2 : bytes_to_u32 [255, 255, 255, 255] = 4294967295 := by decide
    rw [e1, e2] at h
    exact h

/-- C5 (amended): `Chunk::try_from` fails with `ParseChunkError` whenever the
buffer is shorter than 12 bytes, or the declared length differs from
`(buffer length - 12) % 2^32` — the comparison truncates the payload count to
32 bits, so only the reduction mod `2^32` is enforced, and for buffers
shorter than `2^32 + 12` bytes that is exact equality with `length - 12`. -/
theorem length_enforcement_amended (data : List Nat) (_hb : ∀ b ∈ data, b < 256)
    (h : data.length < 12 ∨
      bytes_to_u32 [data.getD 0 0, data.getD 1 0, data.getD 2 0, data.getD 3 0]
        ≠ (data.length - 12) % 2 ^ 32) :
    Chunk.tryFrom data = .err ⟨⟩ := by
  rw [Chunk.tryFrom]
  by_cases h12 : data.length < 12
  · rw [if_pos h12]
  · rw [if_neg h12]
    rcases h with h | h
    · exact absurd h h12
    · simp only [payload_length data (by omega)]
      rw [if_pos (fun heq => h heq.symm)]

/-- C5 witness: a 12-byte buffer declaring length 1 for an empty payload is
rejected. -/
theorem length_enforcement_amended_witness :
    Chunk.tryFrom [0, 0, 0, 1, 82, 117, 83, 116, 0, 0, 0, 0] = .err ⟨⟩ :=
  length_enforcement_amended [0, 0, 0, 1, 82, 117, 83, 116, 0, 0, 0, 0]
    (by decide) (Or.inr (by decide))

/-! ## Claim C4 -/

/-- Flip bit `k` (0 = least significant) of the byte at index `p`. -/
def flipBit (data : List Nat) (p k : Nat) : List Nat :=
  data.set p (data.getD p 0 ^^^ 2 ^ k)

theorem getD_set_ne (l : List Nat) (p i v : Nat) (h : p ≠ i) :
    (l.set p v).getD i 0 = l.getD i 0 := by
  rw [List.getD_eq_getElem?_getD, List.getD_eq_getElem?_getD, List.getElem?_set_ne h]

/-- C4 (amended): flipping any single bit of the type or payload region of a
buffer that parses successfully, holding the trailing CRC and all other
bytes fixed, makes `Chunk::try_from` fail — with the `ParseChunkError` value
whenever the modified type bytes still parse as a `ChunkType` (always the
case for flips inside the payload), and with a process-aborting panic when a
type byte is pushed outside the ASCII-letter range. -/
theorem crc_sensitivity_amended (data : List Nat) (c : Chunk) (p k : Nat)
    (hb : ∀ b ∈ data, b < 256) (h : Chunk.tryFrom data = .ok c)
    (hp4 : 4 ≤ p) (hplt : p < data.length - 4) (hk : k < 8) :
    (Chunk.tryFrom (flipBit data p k) = .err ⟨⟩ ∨
     Chunk.tryFrom (flipBit data p k) = .crash) ∧
    (Chunk.tryFrom (flipBit data p k) = .crash ↔
      ChunkType.tryFrom [(flipBit data p k).getD 4 0, (flipBit data p k).getD 5 0,
        (flipBit data p k).getD 6 0, (flipBit data p k).getD 7 0] = .error ⟨⟩) := by
  obtain ⟨h12, hlen, -, -, -, hstored, hcrceq⟩ := Chunk.tryFrom_ok_fields h
  simp only [flipBit]
  set v := data.getD p 0 ^^^ 2 ^ k with hv
  have hlenD : (data.set p v).length = data.length := List.length_set data p v
  have hblt : data.getD p 0 < 256 := hb _ (getD_mem_of_lt data p (by omega))
  have hvlt : v < 256 := by
    rw [hv]
    exact Nat.xor_lt_two_pow hblt (Nat.pow_lt_pow_right (by norm_num) hk)
  have hvne : v ≠ data.getD p 0 := by
    intro heq
    have h1 := congrArg (fun x => x.testBit k) heq
    simp only [hv, Nat.testBit_xor, Nat.testBit_two_pow_self] at h1
    cases hbit : (data.getD p 0).testBit k <;> rw [hbit] at h1 <;> simp at h1
  have hg0 : (data.set p v).getD 0 0 = data.getD 0 0 := getD_set_ne _ _ _ _ (by omega)
  have hg1 : (data.set p v).getD 1 0 = data.getD 1 0 := getD_set_ne _ _ _ _ (by omega)
  have hg2 : (data.set p v).getD 2 0 = data.getD 2 0 := getD_set_ne _ _ _ _ (by omega)
  have hg3 : (data.set p v).getD 3 0 = data.getD 3 0 := getD_set_ne _ _ _ _ (by omega)
  have ht0 : (data.set p v).getD (data.length - 4) 0 = data.getD (data.length - 4) 0 :=
    getD_set_ne _ _ _ _ (by omega)
  have ht1 : (data.set p v).getD (data.length - 4 + 1) 0
      = data.getD (data.length - 4 + 1) 0 := getD_set_ne _ _ _ _ (by omega)
  have ht2 : (data.set p v).getD (data.length - 4 + 2) 0
      = data.getD (data.length - 4 + 2) 0 := getD_set_ne _ _ _ _ (by omega)
  have ht3 : (data.set p v).getD (data.length - 4 + 3) 0
      = data.getD (data.length - 4 + 3) 0 := getD_set_ne _ _ _ _ (by omega)
  have hregion : ((data.set p v).drop 4).take (data.length - 4 - 4)
      = ((data.drop 4).take (data.length - 4 - 4)).set (p - 4) v := by
    rw [List.drop_set, if_neg (by omega), List.set_take]
  have hreglen : ((data.drop 4).take (data.length - 4 - 4)).length
      = data.length - 8 := by
    simp only [List.length_take, List.length_drop]
    omega
  have hregmem : ∀ x ∈ (data.drop 4).take (data.length - 4 - 4), x < 256 :=
    fun x hx => hb x (((List.take_sublist _ _).trans (List.drop_sublist _ _)).subset hx)
  have hregget : ((data.drop 4).take (data.length - 4 - 4)).getD (p - 4) 0
      = data.getD p 0 := by
    rw [List.getD_eq_getElem?_getD, List.getElem?_take_of_lt (by omega),
      List.getElem?_drop, show 4 + (p - 4) = p from by omega,
      ← List.getD_eq_getElem?_getD]
  have hcrcne : crc32 (((data.drop 4).take (data.length - 4 - 4)).set (p - 4) v)
      ≠ crc32 ((data.drop 4).take (data.length - 4 - 4)) :=
    crc32_set_ne hregmem (by rw [hreglen]; omega) hvlt (by rw [hregget]; exact hvne)
  have hplen : (((data.set p v).drop 8).take (data.length - 4 - 8)).length
      = data.length - 12 := by
    simp only [List.length_take, List.length_drop, List.length_set]
    omega
  rw [Chunk.tryFrom, hlenD, if_neg (by omega)]
  simp only [hg0, hg1, hg2, hg3]
  rw [hplen, if_neg (not_ne_iff.mpr hlen)]
  rw [Chunk.parseAfterLengthCheck, hlenD]
  simp only [hg0, hg1, hg2, hg3]
  cases hty' : ChunkType.tryFrom [(data.set p v).getD 4 0, (data.set p v).getD 5 0,
      (data.set p v).getD 6 0, (data.set p v).getD 7 0] with
  | error e =>
    simp only [hty']
    exact ⟨Or.inr trivial, trivial⟩
  | ok ct' =>
    simp only [hty', hregion, ht0, ht1, ht2, ht3]
    have hcond : crc32 (((data.drop 4).take (data.length - 4 - 4)).set (p - 4) v)
        ≠ bytes_to_u32 [data.getD (data.length - 4) 0, data.getD (data.length - 4 + 1) 0,
            data.getD (data.length - 4 + 2) 0, data.getD (data.length - 4 + 3) 0] := by
      rw [← hstored]
      intro heq
      exact hcrcne (heq.trans hcrceq.symm)
    rw [if_pos hcond]
    exact ⟨Or.inl rfl, iff_of_false (by simp) (by simp)⟩

/-- C4 counterexample: the minimal `"RuSt"` buffer parses successfully, but
flipping bit 7 of the first type byte (index 4) — producing byte 210, not an
ASCII letter — makes `Chunk::try_from` panic (`.crash`) rather than return
the claimed `ParseChunkError`. -/
theorem crc_sensitivity_counterexample :
    Chunk.tryFrom [0, 0, 0, 0, 82, 117, 83, 116, 212, 132, 9, 60]
      = .ok rustEmptyChunk ∧
    flipBit [0, 0, 0, 0, 82, 117, 83, 116, 212, 132, 9, 60] 4 7
      = [0, 0, 0, 0, 210, 117, 83, 116, 212, 132, 9, 60] ∧
    Chunk.tryFrom (flipBit [0, 0, 0, 0, 82, 117, 83, 116, 212, 132, 9, 60] 4 7)
      = .crash ∧
    ParseOutcome.crash ≠ (ParseOutcome.err ⟨⟩ : ParseOutcome ParseChunkError Chunk) :=
  ⟨by decide, by decide, by decide, by decide⟩

/-- C4 witness: flipping bit 0 of the first type byte (82 becomes 83, still
a letter) of the minimal `"RuSt"` buffer is rejected with the error value,
because the recomputed CRC no longer matches the stored one. -/
theorem crc_sensitivity_amended_witness :
    (Chunk.tryFrom (flipBit [0, 0, 0, 0, 82, 117, 83, 116, 212, 132, 9, 60] 4 0)
        = .err ⟨⟩ ∨
     Chunk.tryFrom (flipBit [0, 0, 0, 0, 82, 117, 83, 116, 212, 132, 9, 60] 4 0)
        = .crash) ∧
    (Chunk.tryFrom (flipBit [0, 0, 0, 0, 82, 117, 83, 116, 212, 132, 9, 60] 4 0)
        = .crash ↔
      ChunkType.tryFrom
        [(flipBit [0, 0, 0, 0, 82, 117, 83, 116, 212, 132, 9, 60] 4 0).getD 4 0,
         (flipBit [0, 0, 0, 0, 82, 117, 83, 116, 212, 132, 9, 60] 4 0).getD 5 0,
         (flipBit [0, 0, 0, 0, 82, 117, 83, 116, 212, 132, 9, 60] 4 0).getD 6 0,
         (flipBit [0, 0, 0, 0, 82, 117, 83, 116, 212, 132, 9, 60] 4 0).getD 7 0]
        = .error ⟨⟩) :=
  crc_sensitivity_amended [0, 0, 0, 0, 82, 117, 83, 116, 212, 132, 9, 60]
    rustEmptyChunk 4 0 (by decide) (by decide) (by decide) (by decide) (by decide)

end Pngme
